import Mathlib

/-!
Verification of the OptiPricer core: a shallow embedding of the
Black-Scholes pricing model (`src/models.hpp`), the Greeks calculator
(`include/optipricer/greeks.hpp`), and the options-strategy aggregation
layer (`strategies.hpp`), together with proofs of the specified
properties.

Modelling conventions:
* A C++ `double` parameter that may be NaN or infinite is embedded as
  `FVal`: either an exact finite value (every finite double is a
  rational) or one of the three non-finite states.  The IEEE-754
  comparison semantics (every comparison involving NaN is false,
  infinities compare in the usual order) is reproduced by the `FVal`
  comparison functions.
* Finite double arithmetic is embedded as exact real arithmetic; the
  stored model parameters are exact rationals coerced into `ℝ` where the
  pricing formulas need transcendental functions.
* `std::exp` applied to a finite argument returns a non-finite double
  (`isinf` true) exactly when the mathematical value exceeds the largest
  finite double; this overflow threshold is embedded as `maxDouble`.
* C++ exceptions are embedded with `Except`: `std::invalid_argument`
  from `validate_inputs` and the strangle constructors is
  `invalidParameter`; the `std::runtime_error` raised by `d1` for a too
  small volatility/time is `degenerateInput`; the `std::runtime_error`
  raised by `call_price`/`put_price` for a non-finite discount factor is
  `numericOverflow`.  The `catch`/rethrow wrapper in
  `call_price`/`put_price` only decorates the message, so the error kind
  is preserved by propagation.
-/

namespace OptiPricer

/-- The three error kinds raised by the pricing core. -/
inductive PricingError where
  | invalidParameter : PricingError
  | degenerateInput : PricingError
  | numericOverflow : PricingError
  deriving DecidableEq, Repr

/-- An IEEE-754 double: an exact finite value (every finite double is a
rational number) or one of the non-finite states. -/
inductive FVal where
  | finite : ℚ → FVal
  | pinf : FVal
  | ninf : FVal
  | nan : FVal
  deriving DecidableEq, Repr

/-- IEEE semantics of `x <= c` for a finite constant `c`: false whenever
`x` is NaN, true for `-inf`, false for `+inf`. -/
def FVal.leQ : FVal → ℚ → Bool
  | .finite q, c => decide (q ≤ c)
  | .ninf, _ => true
  | .pinf, _ => false
  | .nan, _ => false

/-- IEEE semantics of `x < c` for a finite constant `c`. -/
def FVal.ltQ : FVal → ℚ → Bool
  | .finite q, c => decide (q < c)
  | .ninf, _ => true
  | .pinf, _ => false
  | .nan, _ => false

/-- IEEE semantics of `x > c` for a finite constant `c`. -/
def FVal.gtQ : FVal → ℚ → Bool
  | .finite q, c => decide (c < q)
  | .ninf, _ => false
  | .pinf, _ => true
  | .nan, _ => false

/-- Embeds `std::isnan`. -/
def FVal.isNaN : FVal → Bool
  | .nan => true
  | _ => false

/-- Embeds `std::isinf`. -/
def FVal.isInf : FVal → Bool
  | .pinf => true
  | .ninf => true
  | _ => false

/-- Source `BlackScholesModel::validate_inputs` (models.hpp): the sequence of
guards run by the constructor, in source order.  Every guard throws
`std::invalid_argument`, embedded as `invalidParameter`. -/
def validate_inputs (K sigma r T S : FVal) : Except PricingError Unit :=
  if K.leQ 0 then .error .invalidParameter
  else if sigma.ltQ 0 then .error .invalidParameter
  else if sigma.gtQ 10 then .error .invalidParameter
  else if T.leQ 0 then .error .invalidParameter
  else if T.gtQ 100 then .error .invalidParameter
  else if S.leQ 0 then .error .invalidParameter
  else if K.isNaN || sigma.isNaN || r.isNaN || T.isNaN || S.isNaN then .error .invalidParameter
  else if K.isInf || sigma.isInf || r.isInf || T.isInf || S.isInf then .error .invalidParameter
  else .ok ()

/-- The validated Black-Scholes model: the five parameters stored by the
constructor.  Validation rejects every non-finite input, so the stored
fields are finite doubles, i.e. exact rationals. -/
structure BlackScholesModel where
  strike_price : ℚ
  volatility : ℚ
  risk_free_rate : ℚ
  time_to_maturity : ℚ
  underlying_price : ℚ
  deriving DecidableEq, Repr

/-- Source `BlackScholesModel::BlackScholesModel(K, sigma, r, T, S)`: store the
five parameters, then run `validate_inputs`; a thrown
`std::invalid_argument` is an `invalidParameter` error.  The fallback
arm is unreachable: validation rejects every non-finite input. -/
def mkBlackScholesModel (K sigma r T S : FVal) : Except PricingError BlackScholesModel :=
  match validate_inputs K sigma r T S with
  | .error e => .error e
  | .ok _ =>
    match K, sigma, r, T, S with
    | .finite k, .finite v, .finite rr, .finite t, .finite s => .ok ⟨k, v, rr, t, s⟩
    | _, _, _, _, _ => .error .invalidParameter

/-- The numerical floor `1e-10` used by `d1`. -/
def degenFloor : ℚ := 1 / 10 ^ 10

/-- The guard of `BlackScholesModel::d1`:
`volatility < 1e-10 || time_to_maturity < 1e-10`. -/
def d1_degenerate (m : BlackScholesModel) : Bool :=
  decide (m.volatility < degenFloor) || decide (m.time_to_maturity < degenFloor)

/-- The error function `erf` used by `utils::norm_cdf` (`std::erf`),
embedded as its mathematical definition. -/
noncomputable def erf (x : ℝ) : ℝ :=
  2 / Real.sqrt Real.pi * ∫ t in (0:ℝ)..x, Real.exp (-t ^ 2)

/-- Source `utils::norm_cdf(x) = 0.5 * (1.0 + std::erf(x / std::sqrt(2.0)))`. -/
noncomputable def norm_cdf (x : ℝ) : ℝ :=
  0.5 * (1 + erf (x / Real.sqrt 2))

/-- Source `utils::norm_pdf(x) = (1.0 / SQRT_2PI) * std::exp(-0.5 * x * x)`;
the literal constant `SQRT_2PI` is the square root of `2 * pi`. -/
noncomputable def norm_pdf (x : ℝ) : ℝ :=
  1 / Real.sqrt (2 * Real.pi) * Real.exp (-0.5 * (x * x))

/-- The value computed by `BlackScholesModel::d1` past its guard:
`(std::log(S / K) + (r + 0.5 * sigma * sigma) * T) / (sigma * std::sqrt(T))`. -/
noncomputable def d1_val (m : BlackScholesModel) : ℝ :=
  (Real.log ((m.underlying_price : ℝ) / (m.strike_price : ℝ)) +
      ((m.risk_free_rate : ℝ) + 0.5 * (m.volatility : ℝ) * (m.volatility : ℝ)) *
        (m.time_to_maturity : ℝ)) /
    ((m.volatility : ℝ) * Real.sqrt (m.time_to_maturity : ℝ))

/-- Source `BlackScholesModel::d1`: throws a `degenerateInput` error when the
volatility or the time to maturity is below the `1e-10` floor, else
returns the Black-Scholes `d1` value. -/
noncomputable def d1 (m : BlackScholesModel) : Except PricingError ℝ :=
  if d1_degenerate m then .error .degenerateInput else .ok (d1_val m)

/-- Source `BlackScholesModel::d2() = d1() - volatility * std::sqrt(time_to_maturity)`;
an exception from `d1` propagates. -/
noncomputable def d2 (m : BlackScholesModel) : Except PricingError ℝ :=
  (d1 m).map (fun x => x - (m.volatility : ℝ) * Real.sqrt (m.time_to_maturity : ℝ))

/-- Source `std::exp(-risk_free_rate * time_to_maturity)` as an exact real. -/
noncomputable def discount_factor (m : BlackScholesModel) : ℝ :=
  Real.exp (-(m.risk_free_rate : ℝ) * (m.time_to_maturity : ℝ))

/-- Overflow threshold of double arithmetic: `std::exp` of a finite
argument is non-finite (`std::isinf`; it is never NaN there) exactly
when the mathematical value exceeds the largest finite double, embedded
as `2 ^ 1024`. -/
noncomputable def maxDouble : ℝ := 2 ^ 1024

/-- The value returned by `BlackScholesModel::call_price` past its
checks: `S * norm_cdf(D1) - K * discount_factor * norm_cdf(D2)`. -/
noncomputable def call_price_val (m : BlackScholesModel) : ℝ :=
  (m.underlying_price : ℝ) * norm_cdf (d1_val m) -
    (m.strike_price : ℝ) * discount_factor m *
      norm_cdf (d1_val m - (m.volatility : ℝ) * Real.sqrt (m.time_to_maturity : ℝ))

/-- The value returned by `BlackScholesModel::put_price` past its
checks: `K * discount_factor * norm_cdf(-D2) - S * norm_cdf(-D1)`. -/
noncomputable def put_price_val (m : BlackScholesModel) : ℝ :=
  (m.strike_price : ℝ) * discount_factor m *
      norm_cdf (-(d1_val m - (m.volatility : ℝ) * Real.sqrt (m.time_to_maturity : ℝ))) -
    (m.underlying_price : ℝ) * norm_cdf (-(d1_val m))

open Classical in
/-- Source `BlackScholesModel::call_price`: evaluate `d1` and `d2` (their
exception propagates through the catch/rethrow wrapper), throw a
`numericOverflow` error when the discount factor is non-finite, else
return the Black-Scholes call price. -/
noncomputable def call_price (m : BlackScholesModel) : Except PricingError ℝ := do
  let _D1 ← d1 m
  let _D2 ← d2 m
  if maxDouble ≤ discount_factor m then .error .numericOverflow
  else .ok (call_price_val m)

open Classical in
/-- Source `BlackScholesModel::put_price`: same structure as `call_price` with
the put formula. -/
noncomputable def put_price (m : BlackScholesModel) : Except PricingError ℝ := do
  let _D1 ← d1 m
  let _D2 ← d2 m
  if maxDouble ≤ discount_factor m then .error .numericOverflow
  else .ok (put_price_val m)

/-- Source `GreeksCalculator::call_delta() = norm_cdf(model.d1())`
(include/optipricer/greeks.hpp); the calculator stores the model by
value, so each accessor is a pure function of the snapshot. -/
noncomputable def call_delta (m : BlackScholesModel) : Except PricingError ℝ :=
  (d1 m).map (fun D1 => norm_cdf D1)

/-- Source `GreeksCalculator::put_delta() = norm_cdf(model.d1()) - 1.0`. -/
noncomputable def put_delta (m : BlackScholesModel) : Except PricingError ℝ :=
  (d1 m).map (fun D1 => norm_cdf D1 - 1)

/-- Source `GreeksCalculator::gamma() = norm_pdf(d1) / (S * sigma * sqrt(T))`. -/
noncomputable def gamma (m : BlackScholesModel) : Except PricingError ℝ :=
  (d1 m).map (fun D1 =>
    norm_pdf D1 /
      ((m.underlying_price : ℝ) * (m.volatility : ℝ) * Real.sqrt (m.time_to_maturity : ℝ)))

/-- Source `GreeksCalculator::vega() = S * norm_pdf(d1) * sqrt(T) / 100`. -/
noncomputable def vega (m : BlackScholesModel) : Except PricingError ℝ :=
  (d1 m).map (fun D1 =>
    (m.underlying_price : ℝ) * norm_pdf D1 * Real.sqrt (m.time_to_maturity : ℝ) / 100)

/-- Source `GreeksCalculator::call_theta()`: the two terms of the theta
formula, divided by 365; `d1`/`d2` exceptions propagate, and the raw
`std::exp(-r * T)` is used with no overflow check. -/
noncomputable def call_theta (m : BlackScholesModel) : Except PricingError ℝ := do
  let D1 ← d1 m
  let D2 ← d2 m
  let term1 := -((m.underlying_price : ℝ) * norm_pdf D1 * (m.volatility : ℝ)) /
    (2 * Real.sqrt (m.time_to_maturity : ℝ))
  let term2 := -(m.risk_free_rate : ℝ) * (m.strike_price : ℝ) *
    Real.exp (-(m.risk_free_rate : ℝ) * (m.time_to_maturity : ℝ)) * norm_cdf D2
  pure ((term1 + term2) / 365)

/-- Source `GreeksCalculator::put_theta()`. -/
noncomputable def put_theta (m : BlackScholesModel) : Except PricingError ℝ := do
  let D1 ← d1 m
  let D2 ← d2 m
  let term1 := -((m.underlying_price : ℝ) * norm_pdf D1 * (m.volatility : ℝ)) /
    (2 * Real.sqrt (m.time_to_maturity : ℝ))
  let term2 := (m.risk_free_rate : ℝ) * (m.strike_price : ℝ) *
    Real.exp (-(m.risk_free_rate : ℝ) * (m.time_to_maturity : ℝ)) * norm_cdf (-D2)
  pure ((term1 + term2) / 365)

/-- Source `GreeksCalculator::call_rho() = K * T * exp(-r * T) * norm_cdf(d2) / 100`;
no overflow check on the discount factor. -/
noncomputable def call_rho (m : BlackScholesModel) : Except PricingError ℝ :=
  (d2 m).map (fun D2 =>
    (m.strike_price : ℝ) * (m.time_to_maturity : ℝ) *
      Real.exp (-(m.risk_free_rate : ℝ) * (m.time_to_maturity : ℝ)) * norm_cdf D2 / 100)

/-- Source `GreeksCalculator::put_rho() = -K * T * exp(-r * T) * norm_cdf(-d2) / 100`. -/
noncomputable def put_rho (m : BlackScholesModel) : Except PricingError ℝ :=
  (d2 m).map (fun D2 =>
    -(m.strike_price : ℝ) * (m.time_to_maturity : ℝ) *
      Real.exp (-(m.risk_free_rate : ℝ) * (m.time_to_maturity : ℝ)) * norm_cdf (-D2) / 100)

/-- Source `strategies::OptionType` (strategies.hpp). -/
inductive OptionType where
  | CALL : OptionType
  | PUT : OptionType
  deriving DecidableEq, Repr

/-- Source `strategies::PositionType`. -/
inductive PositionType where
  | LONG : PositionType
  | SHORT : PositionType
  deriving DecidableEq, Repr

/-- Source `strategies::Position`: one option leg. -/
structure Position where
  option_type : OptionType
  position_type : PositionType
  quantity : ℚ
  strike : ℚ
  deriving DecidableEq, Repr

/-- Source `strategies::OptionsStrategy`: the ordered leg list plus the shared
market context and display name. -/
structure OptionsStrategy where
  positions : List Position
  underlying_price : ℚ
  volatility : ℚ
  risk_free_rate : ℚ
  time_to_maturity : ℚ
  strategy_name : String
  deriving DecidableEq, Repr

/-- Source `OptionsStrategy::OptionsStrategy(S, sigma, r, T, name)`: empty leg
list plus the shared context. -/
def mkStrategy (S sigma r T : ℚ) (name : String) : OptionsStrategy :=
  ⟨[], S, sigma, r, T, name⟩

/-- Source `OptionsStrategy::add_position`: append one leg. -/
def add_position (st : OptionsStrategy) (opt : OptionType) (pos : PositionType)
    (qty strike : ℚ) : OptionsStrategy :=
  { st with positions := st.positions ++ [⟨opt, pos, qty, strike⟩] }

/-- Body of the `total_value` loop for one leg: build a fresh model from
the shared context and the leg's strike (the product composes the
strategy layer with the validated model of optipricer/models.hpp), price
it per the leg's option type, and sign the result by direction. -/
noncomputable def leg_value (st : OptionsStrategy) (p : Position) : Except PricingError ℝ := do
  let model ← mkBlackScholesModel (.finite p.strike) (.finite st.volatility)
    (.finite st.risk_free_rate) (.finite st.time_to_maturity) (.finite st.underlying_price)
  let value ← if p.option_type = OptionType.CALL then call_price model else put_price model
  pure (if p.position_type = PositionType.LONG then value * (p.quantity : ℝ)
    else -value * (p.quantity : ℝ))

/-- Source `OptionsStrategy::total_value`: fold the signed leg values in leg
order starting from 0; a C++ exception aborts the loop, i.e. the first
leg error propagates. -/
noncomputable def total_value (st : OptionsStrategy) : Except PricingError ℝ :=
  st.positions.foldlM (fun total p => do
    let v ← leg_value st p
    pure (total + v)) 0

/-- Body of the `total_delta` loop for one leg, using the Greeks
calculator's `call_delta`/`put_delta` over a fresh model. -/
noncomputable def leg_delta (st : OptionsStrategy) (p : Position) : Except PricingError ℝ := do
  let model ← mkBlackScholesModel (.finite p.strike) (.finite st.volatility)
    (.finite st.risk_free_rate) (.finite st.time_to_maturity) (.finite st.underlying_price)
  let delta ← if p.option_type = OptionType.CALL then call_delta model else put_delta model
  pure (if p.position_type = PositionType.LONG then delta * (p.quantity : ℝ)
    else -delta * (p.quantity : ℝ))

/-- Source `OptionsStrategy::total_delta`: same fold as `total_value` over the
per-leg deltas. -/
noncomputable def total_delta (st : OptionsStrategy) : Except PricingError ℝ :=
  st.positions.foldlM (fun total p => do
    let d ← leg_delta st p
    pure (total + d)) 0

/-- Source `OptionsStrategy::payoff_at_expiration(S_T)`: fold of the signed
intrinsic values; a pure rational computation that never constructs a
model and never fails. -/
def payoff_at_expiration (st : OptionsStrategy) (S_T : ℚ) : ℚ :=
  st.positions.foldl (fun total p =>
    let intrinsic := if p.option_type = OptionType.CALL then max (S_T - p.strike) 0
      else max (p.strike - S_T) 0
    total + (if p.position_type = PositionType.LONG then intrinsic * p.quantity
      else -intrinsic * p.quantity)) 0

/-- Source `strategies::LongCall(S, sigma, r, T, K, qty)`. -/
def LongCall (S sigma r T K qty : ℚ) : OptionsStrategy :=
  add_position (mkStrategy S sigma r T "Long Call") OptionType.CALL PositionType.LONG qty K

/-- Source `strategies::ShortCall(S, sigma, r, T, K, qty)`. -/
def ShortCall (S sigma r T K qty : ℚ) : OptionsStrategy :=
  add_position (mkStrategy S sigma r T "Short Call") OptionType.CALL PositionType.SHORT qty K

/-- Source `strategies::LongPut(S, sigma, r, T, K, qty)`. -/
def LongPut (S sigma r T K qty : ℚ) : OptionsStrategy :=
  add_position (mkStrategy S sigma r T "Long Put") OptionType.PUT PositionType.LONG qty K

/-- Source `strategies::ShortPut(S, sigma, r, T, K, qty)`. -/
def ShortPut (S sigma r T K qty : ℚ) : OptionsStrategy :=
  add_position (mkStrategy S sigma r T "Short Put") OptionType.PUT PositionType.SHORT qty K

/-- Source `strategies::LongStraddle(S, sigma, r, T, K, qty)`: a long call and
a long put at the same strike. -/
def LongStraddle (S sigma r T K qty : ℚ) : OptionsStrategy :=
  add_position
    (add_position (mkStrategy S sigma r T "Long Straddle") OptionType.CALL PositionType.LONG qty K)
    OptionType.PUT PositionType.LONG qty K

/-- Source `strategies::ShortStraddle(S, sigma, r, T, K, qty)`. -/
def ShortStraddle (S sigma r T K qty : ℚ) : OptionsStrategy :=
  add_position
    (add_position (mkStrategy S sigma r T "Short Straddle") OptionType.CALL PositionType.SHORT qty K)
    OptionType.PUT PositionType.SHORT qty K

/-- Source `strategies::LongStrangle(S, sigma, r, T, K_put, K_call, qty)`:
throws `std::invalid_argument` when `K_put >= K_call`, else a long put
at `K_put` then a long call at `K_call`. -/
def LongStrangle (S sigma r T K_put K_call qty : ℚ) : Except PricingError OptionsStrategy :=
  if K_put ≥ K_call then .error .invalidParameter
  else .ok (add_position
    (add_position (mkStrategy S sigma r T "Long Strangle") OptionType.PUT PositionType.LONG qty K_put)
    OptionType.CALL PositionType.LONG qty K_call)

/-- Source `strategies::ShortStrangle(S, sigma, r, T, K_put, K_call, qty)`. -/
def ShortStrangle (S sigma r T K_put K_call qty : ℚ) : Except PricingError OptionsStrategy :=
  if K_put ≥ K_call then .error .invalidParameter
  else .ok (add_position
    (add_position (mkStrategy S sigma r T "Short Strangle") OptionType.PUT PositionType.SHORT qty K_put)
    OptionType.CALL PositionType.SHORT qty K_call)

/-! ### Structural lemmas about the model layer -/

/-- A double that is neither NaN nor infinite is finite. -/
theorem FVal.eq_finite (x : FVal) (h1 : x.isNaN = false) (h2 : x.isInf = false) :
    ∃ q : ℚ, x = .finite q := by
  cases x <;> simp_all [FVal.isNaN, FVal.isInf]

/-- Characterization of validation on finite inputs. -/
theorem validate_finite_ok_iff (k v rr t s : ℚ) :
    validate_inputs (.finite k) (.finite v) (.finite rr) (.finite t) (.finite s) = .ok () ↔
      0 < k ∧ 0 ≤ v ∧ v ≤ 10 ∧ 0 < t ∧ t ≤ 100 ∧ 0 < s := by
  unfold validate_inputs
  simp only [FVal.leQ, FVal.ltQ, FVal.gtQ, FVal.isNaN, FVal.isInf, Bool.or_self, Bool.or_false,
    decide_eq_true_eq, Bool.false_eq_true, if_false]
  split_ifs with h1 h2 h3 h4 h5 h6 <;>
    first
      | exact iff_of_true rfl ⟨not_le.mp h1, not_lt.mp h2, not_lt.mp h3, not_le.mp h4,
          not_lt.mp h5, not_le.mp h6⟩
      | exact iff_of_false (by simp) (by rintro ⟨hk, hv0, hv10, ht0, ht100, hs0⟩; linarith)

/-- Successful construction on finite inputs stores exactly the given
values and certifies the parameter bounds. -/
theorem mk_ok_elim (k v rr t s : ℚ) (m : BlackScholesModel)
    (h : mkBlackScholesModel (.finite k) (.finite v) (.finite rr) (.finite t) (.finite s) =
      .ok m) :
    m = ⟨k, v, rr, t, s⟩ ∧ 0 < k ∧ 0 ≤ v ∧ v ≤ 10 ∧ 0 < t ∧ t ≤ 100 ∧ 0 < s := by
  unfold mkBlackScholesModel at h
  rcases hv : validate_inputs (.finite k) (.finite v) (.finite rr) (.finite t) (.finite s) with
    e | u
  · rw [hv] at h
    exact absurd h (by simp)
  · rw [hv] at h
    simp only [Except.ok.injEq] at h
    cases u
    exact ⟨h.symm, (validate_finite_ok_iff k v rr t s).mp hv⟩

/-- Construction succeeds on finite in-bounds inputs. -/
theorem mk_ok_intro (k v rr t s : ℚ)
    (hb : 0 < k ∧ 0 ≤ v ∧ v ≤ 10 ∧ 0 < t ∧ t ≤ 100 ∧ 0 < s) :
    mkBlackScholesModel (.finite k) (.finite v) (.finite rr) (.finite t) (.finite s) =
      .ok ⟨k, v, rr, t, s⟩ := by
  unfold mkBlackScholesModel
  rw [(validate_finite_ok_iff k v rr t s).mpr hb]

/-- Source `d1` on a non-degenerate model. -/
theorem d1_ok (m : BlackScholesModel) (h : d1_degenerate m = false) :
    d1 m = .ok (d1_val m) := by
  simp [d1, h]

/-- Source `d1` on a degenerate model. -/
theorem d1_err (m : BlackScholesModel) (h : d1_degenerate m = true) :
    d1 m = .error .degenerateInput := by
  simp [d1, h]

/-- Source `d2` on a non-degenerate model. -/
theorem d2_ok (m : BlackScholesModel) (h : d1_degenerate m = false) :
    d2 m = .ok (d1_val m - (m.volatility : ℝ) * Real.sqrt (m.time_to_maturity : ℝ)) := by
  simp [d2, d1, h, Except.map]

/-- Source `d2` on a degenerate model. -/
theorem d2_err (m : BlackScholesModel) (h : d1_degenerate m = true) :
    d2 m = .error .degenerateInput := by
  simp [d2, d1, h, Except.map]

/-- Source `call_price` on a non-degenerate model without discount overflow. -/
theorem call_price_ok (m : BlackScholesModel) (h : d1_degenerate m = false)
    (ho : ¬ maxDouble ≤ discount_factor m) :
    call_price m = .ok (call_price_val m) := by
  rw [call_price, d1_ok m h, d2_ok m h]
  simp only [bind, Except.bind]
  rw [if_neg ho]

/-- Source `call_price` when the discount factor overflows. -/
theorem call_price_overflow (m : BlackScholesModel) (h : d1_degenerate m = false)
    (ho : maxDouble ≤ discount_factor m) :
    call_price m = .error .numericOverflow := by
  rw [call_price, d1_ok m h, d2_ok m h]
  simp only [bind, Except.bind]
  rw [if_pos ho]

/-- Source `call_price` propagates the degenerate-input failure of `d1`. -/
theorem call_price_degen (m : BlackScholesModel) (h : d1_degenerate m = true) :
    call_price m = .error .degenerateInput := by
  rw [call_price, d1_err m h]
  simp only [bind, Except.bind]

/-- Source `put_price` on a non-degenerate model without discount overflow. -/
theorem put_price_ok (m : BlackScholesModel) (h : d1_degenerate m = false)
    (ho : ¬ maxDouble ≤ discount_factor m) :
    put_price m = .ok (put_price_val m) := by
  rw [put_price, d1_ok m h, d2_ok m h]
  simp only [bind, Except.bind]
  rw [if_neg ho]

/-- Source `put_price` when the discount factor overflows. -/
theorem put_price_overflow (m : BlackScholesModel) (h : d1_degenerate m = false)
    (ho : maxDouble ≤ discount_factor m) :
    put_price m = .error .numericOverflow := by
  rw [put_price, d1_ok m h, d2_ok m h]
  simp only [bind, Except.bind]
  rw [if_pos ho]

/-- Source `put_price` propagates the degenerate-input failure of `d1`. -/
theorem put_price_degen (m : BlackScholesModel) (h : d1_degenerate m = true) :
    put_price m = .error .degenerateInput := by
  rw [put_price, d1_err m h]
  simp only [bind, Except.bind]

/-! ### Analytic properties of the error function and the normal CDF -/

/-- The Gaussian integrand is integrable over the whole line. -/
theorem integrable_gauss : MeasureTheory.Integrable (fun t : ℝ => Real.exp (-t ^ 2)) := by
  have h := integrable_exp_neg_mul_sq (b := 1) one_pos
  simpa using h

/-- The error function is odd. -/
theorem erf_neg_eq (x : ℝ) : erf (-x) = -erf x := by
  unfold erf
  have h := intervalIntegral.integral_comp_neg (f := fun t : ℝ => Real.exp (-t ^ 2))
    (a := (0:ℝ)) (b := x)
  simp only [neg_sq, neg_zero] at h
  rw [intervalIntegral.integral_symm 0 (-x)] at h
  rw [h]
  ring

/-- The central integral stays strictly below the Gaussian half-line
integral. -/
theorem gauss_integral_lt (x : ℝ) :
    (∫ t in (0:ℝ)..x, Real.exp (-t ^ 2)) < Real.sqrt Real.pi / 2 := by
  have hsqrtpi : 0 < Real.sqrt Real.pi := Real.sqrt_pos.mpr Real.pi_pos
  rcases le_or_lt x 0 with hx | hx
  · have h1 : 0 ≤ ∫ t in x..(0:ℝ), Real.exp (-t ^ 2) :=
      intervalIntegral.integral_nonneg hx (fun u _ => (Real.exp_pos _).le)
    rw [intervalIntegral.integral_symm x 0]
    linarith
  · have hIoi : ∫ t in Set.Ioi (0:ℝ), Real.exp (-t ^ 2) = Real.sqrt Real.pi / 2 := by
      have h := integral_gaussian_Ioi 1
      simpa using h
    have hunion : Set.Ioc (0:ℝ) x ∪ Set.Ioi x = Set.Ioi (0:ℝ) :=
      Set.Ioc_union_Ioi_eq_Ioi hx.le
    have hsplit : ∫ t in Set.Ioi (0:ℝ), Real.exp (-t ^ 2) =
        (∫ t in Set.Ioc (0:ℝ) x, Real.exp (-t ^ 2)) + ∫ t in Set.Ioi x, Real.exp (-t ^ 2) := by
      rw [← hunion]
      exact MeasureTheory.setIntegral_union (Set.Ioc_disjoint_Ioi le_rfl) measurableSet_Ioi
        integrable_gauss.integrableOn integrable_gauss.integrableOn
    have hpos : 0 < ∫ t in Set.Ioi x, Real.exp (-t ^ 2) := by
      rw [MeasureTheory.setIntegral_pos_iff_support_of_nonneg_ae
        (Filter.Eventually.of_forall (fun t => (Real.exp_pos _).le)) integrable_gauss.integrableOn]
      have hsupp : Function.support (fun t : ℝ => Real.exp (-t ^ 2)) = Set.univ := by
        ext t
        simp [Function.mem_support, (Real.exp_pos _).ne']
      rw [hsupp, Set.univ_inter, Real.volume_Ioi]
      simp
    have hIcx : (∫ t in (0:ℝ)..x, Real.exp (-t ^ 2)) =
        ∫ t in Set.Ioc (0:ℝ) x, Real.exp (-t ^ 2) :=
      intervalIntegral.integral_of_le hx.le
    linarith

/-- Source `erf` is strictly below 1. -/
theorem erf_lt_one (x : ℝ) : erf x < 1 := by
  unfold erf
  have hsqrtpi : 0 < Real.sqrt Real.pi := Real.sqrt_pos.mpr Real.pi_pos
  have key := gauss_integral_lt x
  calc 2 / Real.sqrt Real.pi * ∫ t in (0:ℝ)..x, Real.exp (-t ^ 2)
      < 2 / Real.sqrt Real.pi * (Real.sqrt Real.pi / 2) := by
        exact mul_lt_mul_of_pos_left key (by positivity)
    _ = 1 := by field_simp

/-- Source `erf` is strictly above -1. -/
theorem neg_one_lt_erf (x : ℝ) : -1 < erf x := by
  have h := erf_lt_one (-x)
  rw [erf_neg_eq] at h
  linarith

/-- The normal CDF takes values strictly between 0 and 1. -/
theorem norm_cdf_pos (x : ℝ) : 0 < norm_cdf x := by
  unfold norm_cdf
  have h := neg_one_lt_erf (x / Real.sqrt 2)
  linarith

/-- The normal CDF is strictly below 1. -/
theorem norm_cdf_lt_one (x : ℝ) : norm_cdf x < 1 := by
  unfold norm_cdf
  have h := erf_lt_one (x / Real.sqrt 2)
  linarith

/-- Complement identity of the normal CDF. -/
theorem norm_cdf_add_neg (x : ℝ) : norm_cdf x + norm_cdf (-x) = 1 := by
  unfold norm_cdf
  rw [neg_div, erf_neg_eq]
  ring

/-- Reflection form of the complement identity. -/
theorem norm_cdf_neg (x : ℝ) : norm_cdf (-x) = 1 - norm_cdf x := by
  have h := norm_cdf_add_neg x
  linarith

/-! ### Derivative of the normal CDF and monotonicity of the prices -/

/-- Fundamental theorem of calculus applied to `erf`. -/
theorem hasDerivAt_erf (x : ℝ) :
    HasDerivAt erf (2 / Real.sqrt Real.pi * Real.exp (-x ^ 2)) x := by
  have hcont : Continuous fun t : ℝ => Real.exp (-t ^ 2) := by continuity
  have hI : HasDerivAt (fun u : ℝ => ∫ t in (0:ℝ)..u, Real.exp (-t ^ 2))
      (Real.exp (-x ^ 2)) x :=
    intervalIntegral.integral_hasDerivAt_right integrable_gauss.intervalIntegrable
      (hcont.stronglyMeasurableAtFilter _ _) hcont.continuousAt
  unfold erf
  exact HasDerivAt.const_mul (2 / Real.sqrt Real.pi) hI

/-- The density `norm_pdf` is the derivative of `norm_cdf`. -/
theorem hasDerivAt_norm_cdf (x : ℝ) : HasDerivAt norm_cdf (norm_pdf x) x := by
  have hinner : HasDerivAt (fun y : ℝ => y / Real.sqrt 2) (1 / Real.sqrt 2) x :=
    (hasDerivAt_id x).div_const _
  have herf := HasDerivAt.comp x (hasDerivAt_erf (x / Real.sqrt 2)) hinner
  simp only [Function.comp] at herf
  have hsum := HasDerivAt.const_add 1 herf
  have hmul := HasDerivAt.const_mul (0.5 : ℝ) hsum
  have hval : (0.5 : ℝ) * (2 / Real.sqrt Real.pi * Real.exp (-(x / Real.sqrt 2) ^ 2) *
      (1 / Real.sqrt 2)) = norm_pdf x := by
    unfold norm_pdf
    have hq : (x / Real.sqrt 2) ^ 2 = 0.5 * (x * x) := by
      rw [div_pow, Real.sq_sqrt (by norm_num : (0:ℝ) ≤ 2)]
      ring
    rw [hq, Real.sqrt_mul (by norm_num : (0:ℝ) ≤ 2)]
    have hpi : 0 < Real.sqrt Real.pi := Real.sqrt_pos.mpr Real.pi_pos
    have h2 : 0 < Real.sqrt 2 := by positivity
    field_simp
    ring
  unfold norm_cdf
  exact hval ▸ hmul

/-- Reparametrized `d1`: total volatility `v = sigma * sqrt T` and total
rate `rr = r * T`; matches `d1_val` (see `d1_val_eq_bsD1fun`). -/
noncomputable def bsD1fun (k v rr s : ℝ) : ℝ :=
  (Real.log (s / k) + (rr + v ^ 2 / 2)) / v

/-- Reparametrized call price, the composite of `call_price_val`. -/
noncomputable def bsCallfun (k v rr s : ℝ) : ℝ :=
  s * norm_cdf (bsD1fun k v rr s) - k * Real.exp (-rr) * norm_cdf (bsD1fun k v rr s - v)

/-- Reparametrized put price, the composite of `put_price_val`. -/
noncomputable def bsPutfun (k v rr s : ℝ) : ℝ :=
  k * Real.exp (-rr) * norm_cdf (-(bsD1fun k v rr s - v)) - s * norm_cdf (-(bsD1fun k v rr s))

/-- Source `d1_val` in the reparametrized form. -/
theorem d1_val_eq_bsD1fun (m : BlackScholesModel) (hT : 0 ≤ (m.time_to_maturity : ℝ)) :
    d1_val m = bsD1fun (m.strike_price : ℝ)
      ((m.volatility : ℝ) * Real.sqrt (m.time_to_maturity : ℝ))
      ((m.risk_free_rate : ℝ) * (m.time_to_maturity : ℝ)) (m.underlying_price : ℝ) := by
  unfold d1_val bsD1fun
  rw [mul_pow, Real.sq_sqrt hT]
  ring_nf

/-- Source `call_price_val` in the reparametrized form. -/
theorem call_price_val_eq_bsCallfun (m : BlackScholesModel)
    (hT : 0 ≤ (m.time_to_maturity : ℝ)) :
    call_price_val m = bsCallfun (m.strike_price : ℝ)
      ((m.volatility : ℝ) * Real.sqrt (m.time_to_maturity : ℝ))
      ((m.risk_free_rate : ℝ) * (m.time_to_maturity : ℝ)) (m.underlying_price : ℝ) := by
  unfold call_price_val bsCallfun discount_factor
  rw [← d1_val_eq_bsD1fun m hT, neg_mul]

/-- Source `put_price_val` in the reparametrized form. -/
theorem put_price_val_eq_bsPutfun (m : BlackScholesModel)
    (hT : 0 ≤ (m.time_to_maturity : ℝ)) :
    put_price_val m = bsPutfun (m.strike_price : ℝ)
      ((m.volatility : ℝ) * Real.sqrt (m.time_to_maturity : ℝ))
      ((m.risk_free_rate : ℝ) * (m.time_to_maturity : ℝ)) (m.underlying_price : ℝ) := by
  unfold put_price_val bsPutfun discount_factor
  rw [← d1_val_eq_bsD1fun m hT, neg_mul]

/-- The Black-Scholes kernel identity
`K e^{-rr} phi(d1 - v) = S phi(d1)`. -/
theorem bs_pdf_cancel (k v rr s : ℝ) (hk : 0 < k) (hv : 0 < v) (hs : 0 < s) :
    k * Real.exp (-rr) * norm_pdf (bsD1fun k v rr s - v) = s * norm_pdf (bsD1fun k v rr s) := by
  unfold norm_pdf bsD1fun
  set d : ℝ := (Real.log (s / k) + (rr + v ^ 2 / 2)) / v with hd
  have hdv : d * v = Real.log s - Real.log k + rr + v ^ 2 / 2 := by
    rw [hd, div_mul_cancel₀ _ hv.ne', Real.log_div hs.ne' hk.ne']
    ring
  have hexp : k * Real.exp (-rr) * Real.exp (-0.5 * ((d - v) * (d - v))) =
      s * Real.exp (-0.5 * (d * d)) := by
    nth_rewrite 1 [← Real.exp_log hk]
    nth_rewrite 1 [← Real.exp_log hs]
    rw [← Real.exp_add, ← Real.exp_add, ← Real.exp_add]
    congr 1
    linear_combination hdv
  linear_combination (1 / Real.sqrt (2 * Real.pi)) * hexp

/-- Derivative of `bsD1fun` in the underlying price. -/
theorem hasDerivAt_bsD1fun (k v rr s : ℝ) (hk : 0 < k) (hv : 0 < v) (hs : 0 < s) :
    HasDerivAt (fun u => bsD1fun k v rr u) (1 / (s * v)) s := by
  have hsk : s / k ≠ 0 := div_ne_zero hs.ne' hk.ne'
  have hlog : HasDerivAt (fun u : ℝ => Real.log (u / k)) ((1 / k) / (s / k)) s :=
    ((hasDerivAt_id s).div_const k).log hsk
  have h2 := (hlog.add_const (rr + v ^ 2 / 2)).div_const v
  have hval : ((1 / k) / (s / k)) / v = 1 / (s * v) := by
    field_simp
  unfold bsD1fun
  exact hval ▸ h2

/-- Derivative of the call price in the underlying price: the delta
`norm_cdf (d1)`. -/
theorem hasDerivAt_bsCallfun (k v rr s : ℝ) (hk : 0 < k) (hv : 0 < v) (hs : 0 < s) :
    HasDerivAt (fun u => bsCallfun k v rr u) (norm_cdf (bsD1fun k v rr s)) s := by
  have hD1 := hasDerivAt_bsD1fun k v rr s hk hv hs
  have hPhi : HasDerivAt (fun u => norm_cdf (bsD1fun k v rr u))
      (norm_pdf (bsD1fun k v rr s) * (1 / (s * v))) s := by
    have h := HasDerivAt.comp s (hasDerivAt_norm_cdf (bsD1fun k v rr s)) hD1
    simpa [Function.comp] using h
  have hA : HasDerivAt (fun u => u * norm_cdf (bsD1fun k v rr u))
      (1 * norm_cdf (bsD1fun k v rr s) + s * (norm_pdf (bsD1fun k v rr s) * (1 / (s * v)))) s :=
    (hasDerivAt_id s).mul hPhi
  have hPhi2 : HasDerivAt (fun u => norm_cdf (bsD1fun k v rr u - v))
      (norm_pdf (bsD1fun k v rr s - v) * (1 / (s * v))) s := by
    have h := HasDerivAt.comp s (hasDerivAt_norm_cdf (bsD1fun k v rr s - v)) (hD1.sub_const v)
    simpa [Function.comp] using h
  have hB : HasDerivAt (fun u => k * Real.exp (-rr) * norm_cdf (bsD1fun k v rr u - v))
      (k * Real.exp (-rr) * (norm_pdf (bsD1fun k v rr s - v) * (1 / (s * v)))) s :=
    HasDerivAt.const_mul (k * Real.exp (-rr)) hPhi2
  have hsum := hA.sub hB
  have hderiv : 1 * norm_cdf (bsD1fun k v rr s) +
      s * (norm_pdf (bsD1fun k v rr s) * (1 / (s * v))) -
      k * Real.exp (-rr) * (norm_pdf (bsD1fun k v rr s - v) * (1 / (s * v))) =
      norm_cdf (bsD1fun k v rr s) := by
    linear_combination (-(1 / (s * v))) * bs_pdf_cancel k v rr s hk hv hs
  rw [hderiv] at hsum
  unfold bsCallfun
  exact hsum

/-- The call price is strictly increasing in the underlying price. -/
theorem bsCallfun_strictMonoOn (k v rr : ℝ) (hk : 0 < k) (hv : 0 < v) :
    StrictMonoOn (fun s => bsCallfun k v rr s) (Set.Ioi (0:ℝ)) := by
  apply strictMonoOn_of_deriv_pos (convex_Ioi 0)
  · intro s hs
    exact (hasDerivAt_bsCallfun k v rr s hk hv (Set.mem_Ioi.mp hs)).continuousAt.continuousWithinAt
  · intro s hs
    rw [interior_Ioi] at hs
    rw [(hasDerivAt_bsCallfun k v rr s hk hv (Set.mem_Ioi.mp hs)).deriv]
    exact norm_cdf_pos _

/-- Put-call decomposition of the reparametrized put price. -/
theorem bsPutfun_eq (k v rr s : ℝ) :
    bsPutfun k v rr s = bsCallfun k v rr s - s + k * Real.exp (-rr) := by
  unfold bsPutfun bsCallfun
  rw [norm_cdf_neg, norm_cdf_neg]
  ring

/-- Derivative of the put price in the underlying price: the put delta
`norm_cdf (d1) - 1`. -/
theorem hasDerivAt_bsPutfun (k v rr s : ℝ) (hk : 0 < k) (hv : 0 < v) (hs : 0 < s) :
    HasDerivAt (fun u => bsPutfun k v rr u) (norm_cdf (bsD1fun k v rr s) - 1) s := by
  have h1 := (hasDerivAt_bsCallfun k v rr s hk hv hs).sub (hasDerivAt_id s)
  have h2 := h1.add_const (k * Real.exp (-rr))
  simp only [id_eq] at h2
  have hfun : (fun u => bsCallfun k v rr u - u + k * Real.exp (-rr)) =
      fun u => bsPutfun k v rr u := by
    funext u
    rw [bsPutfun_eq]
  rw [hfun] at h2
  exact h2

/-- The put price is strictly decreasing in the underlying price. -/
theorem bsPutfun_strictAntiOn (k v rr : ℝ) (hk : 0 < k) (hv : 0 < v) :
    StrictAntiOn (fun s => bsPutfun k v rr s) (Set.Ioi (0:ℝ)) := by
  apply strictAntiOn_of_deriv_neg (convex_Ioi 0)
  · intro s hs
    exact (hasDerivAt_bsPutfun k v rr s hk hv (Set.mem_Ioi.mp hs)).continuousAt.continuousWithinAt
  · intro s hs
    rw [interior_Ioi] at hs
    rw [(hasDerivAt_bsPutfun k v rr s hk hv (Set.mem_Ioi.mp hs)).deriv]
    have h := norm_cdf_lt_one (bsD1fun k v rr s)
    linarith

/-! ### Elimination lemmas and overflow bounds -/

/-- A successful call price certifies both guards and gives the value. -/
theorem call_price_ok_elim (m : BlackScholesModel) (c : ℝ) (h : call_price m = .ok c) :
    d1_degenerate m = false ∧ ¬ maxDouble ≤ discount_factor m ∧ c = call_price_val m := by
  by_cases hd : d1_degenerate m = true
  · rw [call_price_degen m hd] at h
    exact absurd h (by simp)
  · have hd2 : d1_degenerate m = false := eq_false_of_ne_true hd
    by_cases ho : maxDouble ≤ discount_factor m
    · rw [call_price_overflow m hd2 ho] at h
      exact absurd h (by simp)
    · rw [call_price_ok m hd2 ho] at h
      simp only [Except.ok.injEq] at h
      exact ⟨hd2, ho, h.symm⟩

/-- A successful put price certifies both guards and gives the value. -/
theorem put_price_ok_elim (m : BlackScholesModel) (p : ℝ) (h : put_price m = .ok p) :
    d1_degenerate m = false ∧ ¬ maxDouble ≤ discount_factor m ∧ p = put_price_val m := by
  by_cases hd : d1_degenerate m = true
  · rw [put_price_degen m hd] at h
    exact absurd h (by simp)
  · have hd2 : d1_degenerate m = false := eq_false_of_ne_true hd
    by_cases ho : maxDouble ≤ discount_factor m
    · rw [put_price_overflow m hd2 ho] at h
      exact absurd h (by simp)
    · rw [put_price_ok m hd2 ho] at h
      simp only [Except.ok.injEq] at h
      exact ⟨hd2, ho, h.symm⟩

/-- A non-degenerate guard bounds the volatility away from zero. -/
theorem vol_pos_of_not_degenerate (m : BlackScholesModel) (h : d1_degenerate m = false) :
    degenFloor ≤ m.volatility ∧ degenFloor ≤ m.time_to_maturity := by
  simp only [d1_degenerate, Bool.or_eq_false_iff, decide_eq_false_iff_not, not_lt] at h
  exact h

/-- The overflow threshold is far above one. -/
theorem one_lt_maxDouble : (1 : ℝ) < maxDouble := by
  unfold maxDouble
  norm_num

/-- Source `exp` of a nonpositive argument never overflows a double. -/
theorem exp_nonpos_not_overflow (x : ℝ) (hx : x ≤ 0) : ¬ maxDouble ≤ Real.exp x := by
  intro h
  have h1 : Real.exp x ≤ 1 := by
    calc Real.exp x ≤ Real.exp 0 := Real.exp_le_exp.mpr hx
      _ = 1 := Real.exp_zero
  have h2 := one_lt_maxDouble
  linarith

/-- Source `exp 800` exceeds the largest finite double: the concrete overflow
input used below. -/
theorem maxDouble_le_exp_800 : maxDouble ≤ Real.exp 800 := by
  unfold maxDouble
  have h2 : (2 : ℝ) ^ (1024 : ℕ) = Real.exp ((1024 : ℕ) * Real.log 2) := by
    rw [Real.exp_nat_mul, Real.exp_log two_pos]
  rw [h2]
  apply Real.exp_le_exp.mpr
  have hlog := Real.log_two_lt_d9
  push_cast
  nlinarith

/-! ### Claim C1 -/

/-- The invalidity condition named by the specification: `K <= 0`, or
`sigma < 0`, or `sigma > 10` (1000%), or `T <= 0`, or `T > 100`, or
`S <= 0`, or any of the five values NaN or infinite; comparisons carry
IEEE semantics. -/
def invalid_condition (K sigma r T S : FVal) : Bool :=
  K.leQ 0 || sigma.ltQ 0 || sigma.gtQ 10 || T.leQ 0 || T.gtQ 100 || S.leQ 0 ||
    (K.isNaN || sigma.isNaN || r.isNaN || T.isNaN || S.isNaN) ||
    (K.isInf || sigma.isInf || r.isInf || T.isInf || S.isInf)

/-- C1: the constructor fails, always with `InvalidParameter`, exactly
when `K <= 0`, `sigma < 0`, `sigma > 10`, `T <= 0`, `T > 100`, `S <= 0`,
or some input is NaN or infinite; otherwise it succeeds and the model
stores exactly the five given values. -/
theorem C1_constructor_validation :
    (∀ K sigma r T S : FVal,
      mkBlackScholesModel K sigma r T S = .error .invalidParameter ↔
        invalid_condition K sigma r T S = true) ∧
    (∀ k v rr t s : ℚ,
      invalid_condition (.finite k) (.finite v) (.finite rr) (.finite t) (.finite s) = false →
      mkBlackScholesModel (.finite k) (.finite v) (.finite rr) (.finite t) (.finite s) =
        .ok ⟨k, v, rr, t, s⟩) := by
  constructor
  · intro K sigma r T S
    unfold mkBlackScholesModel validate_inputs
    split_ifs with h1 h2 h3 h4 h5 h6 h7 h8
    · simp [invalid_condition, h1]
    · simp [invalid_condition, h2]
    · simp [invalid_condition, h3]
    · simp [invalid_condition, h4]
    · simp [invalid_condition, h5]
    · simp [invalid_condition, h6]
    · simp [invalid_condition, h7]
    · simp [invalid_condition, h8]
    · simp only [Bool.or_eq_true, not_or, Bool.not_eq_true] at h7 h8
      obtain ⟨⟨⟨⟨hKn, hvn⟩, hrn⟩, htn⟩, hsn⟩ := h7
      obtain ⟨⟨⟨⟨hKi, hvi⟩, hri⟩, hti⟩, hsi⟩ := h8
      obtain ⟨k, rfl⟩ := FVal.eq_finite K hKn hKi
      obtain ⟨v, rfl⟩ := FVal.eq_finite sigma hvn hvi
      obtain ⟨rr, rfl⟩ := FVal.eq_finite r hrn hri
      obtain ⟨t, rfl⟩ := FVal.eq_finite T htn hti
      obtain ⟨s0, rfl⟩ := FVal.eq_finite S hsn hsi
      simp [invalid_condition, h1, h2, h3, h4, h5, h6, hKn, hvn, hrn, htn, hsn,
        hKi, hvi, hri, hti, hsi]
  · intro k v rr t s hinv
    simp only [invalid_condition, Bool.or_eq_false_iff] at hinv
    obtain ⟨⟨⟨⟨⟨⟨⟨g1, g2⟩, g3⟩, g4⟩, g5⟩, g6⟩, g7⟩, g8⟩ := hinv
    unfold mkBlackScholesModel validate_inputs
    simp [g1, g2, g3, g4, g5, g6, g7, g8]

/-- Witness for C1: a valid construction stores the inputs; the spec
test vectors `K = -5` and `sigma = NaN` are rejected. -/
theorem C1_witness :
    (mkBlackScholesModel (.finite 100) (.finite 1) (.finite 0) (.finite 1)
        (.finite 100) = .ok ⟨100, 1, 0, 1, 100⟩) ∧
    (mkBlackScholesModel (.finite (-5)) (.finite 1) (.finite 0) (.finite 1)
        (.finite 100) = .error .invalidParameter) ∧
    (mkBlackScholesModel (.finite 100) .nan (.finite 0) (.finite 1)
        (.finite 100) = .error .invalidParameter) :=
  ⟨C1_constructor_validation.2 100 1 0 1 100 (by decide),
   (C1_constructor_validation.1 _ _ _ _ _).mpr (by decide),
   (C1_constructor_validation.1 _ _ _ _ _).mpr (by decide)⟩

/-! ### Claims C2 to C5 about the model and the Greeks -/

/-- Any model with volatility and maturity at least one clears the
`1e-10` floor. -/
theorem not_degenerate_of_ge_one (m : BlackScholesModel) (hv : 1 ≤ m.volatility)
    (ht : 1 ≤ m.time_to_maturity) : d1_degenerate m = false := by
  simp only [d1_degenerate, Bool.or_eq_false_iff, decide_eq_false_iff_not, not_lt, degenFloor]
  exact ⟨le_trans (by norm_num) hv, le_trans (by norm_num) ht⟩

/-- C3: on a validly constructed model, `d1` fails with `DegenerateInput`
exactly when `sigma < 1e-10` or `T < 1e-10`, otherwise returns the
Black-Scholes `d1` formula, and a successful `d2` is `d1 - sigma * sqrt T`. -/
theorem C3_d1_d2 : ∀ (k v rr t s0 : ℚ) (m : BlackScholesModel),
    mkBlackScholesModel (.finite k) (.finite v) (.finite rr) (.finite t) (.finite s0) = .ok m →
    ((d1 m = .error .degenerateInput ↔ (v < degenFloor ∨ t < degenFloor)) ∧
     (¬(v < degenFloor ∨ t < degenFloor) →
        d1 m = .ok ((Real.log ((s0 : ℝ) / (k : ℝ)) +
          ((rr : ℝ) + 0.5 * (v : ℝ) * (v : ℝ)) * (t : ℝ)) /
          ((v : ℝ) * Real.sqrt (t : ℝ)))) ∧
     (∀ x : ℝ, d1 m = .ok x → d2 m = .ok (x - (v : ℝ) * Real.sqrt (t : ℝ)))) := by
  intro k v rr t s0 m hmk
  obtain ⟨rfl, -⟩ := mk_ok_elim _ _ _ _ _ _ hmk
  refine ⟨⟨?_, ?_⟩, ?_, ?_⟩
  · intro h
    by_contra hc
    push_neg at hc
    have hf : d1_degenerate ⟨k, v, rr, t, s0⟩ = false := by
      simp only [d1_degenerate, Bool.or_eq_false_iff, decide_eq_false_iff_not, not_lt]
      exact ⟨hc.1, hc.2⟩
    rw [d1_ok _ hf] at h
    exact absurd h (by simp)
  · intro h
    apply d1_err
    simp only [d1_degenerate, Bool.or_eq_true, decide_eq_true_eq]
    exact h
  · intro h
    push_neg at h
    have hf : d1_degenerate ⟨k, v, rr, t, s0⟩ = false := by
      simp only [d1_degenerate, Bool.or_eq_false_iff, decide_eq_false_iff_not, not_lt]
      exact ⟨h.1, h.2⟩
    rw [d1_ok _ hf]
    rfl
  · intro x hx
    cases hb : d1_degenerate ⟨k, v, rr, t, s0⟩
    · rw [d1_ok _ hb] at hx
      simp only [Except.ok.injEq] at hx
      rw [d2_ok _ hb, hx]
    · rw [d1_err _ hb] at hx
      exact absurd hx (by simp)

/-- Witness for C3 at the valid model (100, 1, 0, 1, 100). -/
theorem C3_witness :
    d1 ⟨100, 1, 0, 1, 100⟩ = .ok ((Real.log (((100:ℚ) : ℝ) / ((100:ℚ) : ℝ)) +
      (((0:ℚ) : ℝ) + 0.5 * ((1:ℚ) : ℝ) * ((1:ℚ) : ℝ)) * ((1:ℚ) : ℝ)) /
      (((1:ℚ) : ℝ) * Real.sqrt ((1:ℚ) : ℝ))) :=
  (C3_d1_d2 100 1 0 1 100 ⟨100, 1, 0, 1, 100⟩ (mk_ok_intro _ _ _ _ _ (by norm_num))).2.1
    (by norm_num [degenFloor])

/-- C2: put-call parity; the difference of a successful call and put
price is exactly `S - K * exp (-r * T)`. -/
theorem C2_put_call_parity : ∀ (k v rr t s0 : ℚ) (m : BlackScholesModel) (c p : ℝ),
    mkBlackScholesModel (.finite k) (.finite v) (.finite rr) (.finite t) (.finite s0) = .ok m →
    call_price m = .ok c → put_price m = .ok p →
    c - p = (s0 : ℝ) - (k : ℝ) * Real.exp (-(rr : ℝ) * (t : ℝ)) := by
  intro k v rr t s0 m c p hmk hc hp
  obtain ⟨rfl, -⟩ := mk_ok_elim _ _ _ _ _ _ hmk
  obtain ⟨-, -, rfl⟩ := call_price_ok_elim _ _ hc
  obtain ⟨-, -, rfl⟩ := put_price_ok_elim _ _ hp
  unfold call_price_val put_price_val discount_factor
  dsimp only
  rw [norm_cdf_neg, norm_cdf_neg]
  ring

/-- Witness for C2 at the valid model (100, 1, 0, 1, 100). -/
theorem C2_witness :
    call_price_val ⟨100, 1, 0, 1, 100⟩ - put_price_val ⟨100, 1, 0, 1, 100⟩ =
      ((100:ℚ) : ℝ) - ((100:ℚ) : ℝ) * Real.exp (-((0:ℚ) : ℝ) * ((1:ℚ) : ℝ)) := by
  have hf : d1_degenerate ⟨100, 1, 0, 1, 100⟩ = false :=
    not_degenerate_of_ge_one _ (by norm_num) (by norm_num)
  have ho : ¬ maxDouble ≤ discount_factor ⟨100, 1, 0, 1, 100⟩ := by
    unfold discount_factor
    exact exp_nonpos_not_overflow _ (by push_cast; norm_num)
  exact C2_put_call_parity 100 1 0 1 100 ⟨100, 1, 0, 1, 100⟩ _ _
    (mk_ok_intro _ _ _ _ _ (by norm_num)) (call_price_ok _ hf ho) (put_price_ok _ hf ho)

/-- C5: given `d1` succeeds, both prices fail, with `NumericOverflow`,
exactly when the discount factor is non-finite; otherwise they return
the Black-Scholes formulas. -/
theorem C5_price_overflow : ∀ (k v rr t s0 : ℚ) (m : BlackScholesModel),
    mkBlackScholesModel (.finite k) (.finite v) (.finite rr) (.finite t) (.finite s0) = .ok m →
    (∃ D, d1 m = .ok D) →
    ((maxDouble ≤ discount_factor m →
        call_price m = .error .numericOverflow ∧ put_price m = .error .numericOverflow) ∧
     (¬ maxDouble ≤ discount_factor m →
        call_price m = .ok ((s0 : ℝ) * norm_cdf (d1_val m) -
          (k : ℝ) * Real.exp (-(rr : ℝ) * (t : ℝ)) *
            norm_cdf (d1_val m - (v : ℝ) * Real.sqrt (t : ℝ))) ∧
        put_price m = .ok ((k : ℝ) * Real.exp (-(rr : ℝ) * (t : ℝ)) *
          norm_cdf (-(d1_val m - (v : ℝ) * Real.sqrt (t : ℝ))) -
          (s0 : ℝ) * norm_cdf (-(d1_val m))))) := by
  intro k v rr t s0 m hmk hD
  obtain ⟨rfl, -⟩ := mk_ok_elim _ _ _ _ _ _ hmk
  obtain ⟨D, hD⟩ := hD
  have hf : d1_degenerate ⟨k, v, rr, t, s0⟩ = false := by
    cases hb : d1_degenerate ⟨k, v, rr, t, s0⟩
    · rfl
    · rw [d1_err _ hb] at hD
      exact absurd hD (by simp)
  constructor
  · intro ho
    exact ⟨call_price_overflow _ hf ho, put_price_overflow _ hf ho⟩
  · intro ho
    exact ⟨by rw [call_price_ok _ hf ho]; rfl, by rw [put_price_ok _ hf ho]; rfl⟩

/-- Witness for C5: at the valid model (100, 1, -8, 100, 100) the
discount factor `exp 800` overflows and both prices fail with
`NumericOverflow`; at (100, 1, 0, 1, 100) both succeed. -/
theorem C5_witness :
    (call_price ⟨100, 1, -8, 100, 100⟩ = .error .numericOverflow ∧
     put_price ⟨100, 1, -8, 100, 100⟩ = .error .numericOverflow) ∧
    (call_price ⟨100, 1, 0, 1, 100⟩).isOk = true := by
  have hfa : d1_degenerate ⟨100, 1, -8, 100, 100⟩ = false :=
    not_degenerate_of_ge_one _ (by norm_num) (by norm_num)
  have hfb : d1_degenerate ⟨100, 1, 0, 1, 100⟩ = false :=
    not_degenerate_of_ge_one _ (by norm_num) (by norm_num)
  have hda : discount_factor ⟨100, 1, -8, 100, 100⟩ = Real.exp 800 := by
    unfold discount_factor
    push_cast
    norm_num
  constructor
  · exact (C5_price_overflow 100 1 (-8) 100 100 ⟨100, 1, -8, 100, 100⟩
      (mk_ok_intro _ _ _ _ _ (by norm_num)) ⟨d1_val _, d1_ok _ hfa⟩).1
      (by rw [hda]; exact maxDouble_le_exp_800)
  · have h := (C5_price_overflow 100 1 0 1 100 ⟨100, 1, 0, 1, 100⟩
      (mk_ok_intro _ _ _ _ _ (by norm_num)) ⟨d1_val _, d1_ok _ hfb⟩).2
      (by unfold discount_factor; exact exp_nonpos_not_overflow _ (by push_cast; norm_num))
    rw [h.1]
    rfl

/-- C4 (amended): every Greek accessor fails exactly when `d1` fails,
always with the propagated `DegenerateInput` error; none of them adds an
overflow check, so none ever fails with `NumericOverflow`. -/
theorem C4_greeks_propagation : ∀ m : BlackScholesModel,
    (d1_degenerate m = true →
      call_delta m = .error .degenerateInput ∧ put_delta m = .error .degenerateInput ∧
      gamma m = .error .degenerateInput ∧ vega m = .error .degenerateInput ∧
      call_theta m = .error .degenerateInput ∧ put_theta m = .error .degenerateInput ∧
      call_rho m = .error .degenerateInput ∧ put_rho m = .error .degenerateInput) ∧
    (d1_degenerate m = false →
      (call_delta m).isOk = true ∧ (put_delta m).isOk = true ∧ (gamma m).isOk = true ∧
      (vega m).isOk = true ∧ (call_theta m).isOk = true ∧ (put_theta m).isOk = true ∧
      (call_rho m).isOk = true ∧ (put_rho m).isOk = true) := by
  intro m
  constructor
  · intro h
    refine ⟨?_, ?_, ?_, ?_, ?_, ?_, ?_, ?_⟩ <;>
      simp [call_delta, put_delta, gamma, vega, call_theta, put_theta, call_rho, put_rho,
        d1_err m h, d2_err m h, Except.map, bind, Except.bind]
  · intro h
    refine ⟨?_, ?_, ?_, ?_, ?_, ?_, ?_, ?_⟩ <;>
      simp [call_delta, put_delta, gamma, vega, call_theta, put_theta, call_rho, put_rho,
        d1_ok m h, d2_ok m h, Except.map, Except.isOk, Except.toBool, bind, Except.bind, pure,
        Except.pure]

/-- Witness for C4 at the valid degenerate model (100, 0, 0, 1, 100)
with zero volatility, and the valid model (100, 1, 0, 1, 100). -/
theorem C4_witness :
    (call_theta ⟨100, 0, 0, 1, 100⟩ = .error .degenerateInput ∧
      call_rho ⟨100, 0, 0, 1, 100⟩ = .error .degenerateInput) ∧
    ((call_theta ⟨100, 1, 0, 1, 100⟩).isOk = true ∧
      (call_rho ⟨100, 1, 0, 1, 100⟩).isOk = true) := by
  have hdeg : d1_degenerate ⟨100, 0, 0, 1, 100⟩ = true := by
    simp only [d1_degenerate, Bool.or_eq_true, decide_eq_true_eq, degenFloor]
    exact Or.inl (by norm_num)
  have hok : d1_degenerate ⟨100, 1, 0, 1, 100⟩ = false :=
    not_degenerate_of_ge_one _ (by norm_num) (by norm_num)
  have h1 := (C4_greeks_propagation ⟨100, 0, 0, 1, 100⟩).1 hdeg
  have h2 := (C4_greeks_propagation ⟨100, 1, 0, 1, 100⟩).2 hok
  exact ⟨⟨h1.2.2.2.2.1, h1.2.2.2.2.2.2.1⟩, ⟨h2.2.2.2.2.1, h2.2.2.2.2.2.2.1⟩⟩

/-- Counterexample to C4 as stated: at the validly constructed model
(K, sigma, r, T, S) = (100, 1, -8, 100, 100) the discount factor
`exp 800` exceeds the largest finite double, yet `call_rho` does not
fail with `NumericOverflow`: it returns successfully (a non-finite
double in the C++ program). -/
theorem C4_counterexample :
    mkBlackScholesModel (.finite 100) (.finite 1) (.finite (-8)) (.finite 100) (.finite 100) =
      .ok ⟨100, 1, -8, 100, 100⟩ ∧
    maxDouble ≤ discount_factor ⟨100, 1, -8, 100, 100⟩ ∧
    (call_rho ⟨100, 1, -8, 100, 100⟩).isOk = true ∧
    call_rho ⟨100, 1, -8, 100, 100⟩ ≠ .error .numericOverflow := by
  have hf : d1_degenerate ⟨100, 1, -8, 100, 100⟩ = false :=
    not_degenerate_of_ge_one _ (by norm_num) (by norm_num)
  have hda : discount_factor ⟨100, 1, -8, 100, 100⟩ = Real.exp 800 := by
    unfold discount_factor
    push_cast
    norm_num
  refine ⟨mk_ok_intro _ _ _ _ _ (by norm_num), ?_, ?_, ?_⟩
  · rw [hda]
    exact maxDouble_le_exp_800
  · simp [call_rho, d2_ok _ hf, Except.map, Except.isOk, Except.toBool]
  · simp [call_rho, d2_ok _ hf, Except.map]

/-- C6: with all other parameters equal, a strictly larger underlying
price gives a strictly larger call price and a strictly smaller put
price. -/
theorem C6_price_monotonicity :
    ∀ (k v rr t s1 s2 : ℚ) (m1 m2 : BlackScholesModel) (c1 c2 p1 p2 : ℝ),
    mkBlackScholesModel (.finite k) (.finite v) (.finite rr) (.finite t) (.finite s1) = .ok m1 →
    mkBlackScholesModel (.finite k) (.finite v) (.finite rr) (.finite t) (.finite s2) = .ok m2 →
    s1 < s2 →
    call_price m1 = .ok c1 → call_price m2 = .ok c2 →
    put_price m1 = .ok p1 → put_price m2 = .ok p2 →
    c1 < c2 ∧ p2 < p1 := by
  intro k v rr t s1 s2 m1 m2 c1 c2 p1 p2 hmk1 hmk2 hs hc1 hc2 hp1 hp2
  obtain ⟨rfl, hkpos, -, -, htpos, -, hs1pos⟩ := mk_ok_elim _ _ _ _ _ _ hmk1
  obtain ⟨rfl, -, -, -, -, -, hs2pos⟩ := mk_ok_elim _ _ _ _ _ _ hmk2
  obtain ⟨hdeg1, -, rfl⟩ := call_price_ok_elim _ _ hc1
  obtain ⟨-, -, rfl⟩ := call_price_ok_elim _ _ hc2
  obtain ⟨-, -, rfl⟩ := put_price_ok_elim _ _ hp1
  obtain ⟨-, -, rfl⟩ := put_price_ok_elim _ _ hp2
  have hvfloor := (vol_pos_of_not_degenerate _ hdeg1).1
  have hvpos : (0 : ℚ) < v := lt_of_lt_of_le (by norm_num [degenFloor]) hvfloor
  have htR : (0 : ℝ) ≤ (t : ℚ) := by exact_mod_cast htpos.le
  have hkR : (0 : ℝ) < (k : ℚ) := by exact_mod_cast hkpos
  have hvR : (0 : ℝ) < (v : ℝ) * Real.sqrt (t : ℝ) := by
    apply mul_pos
    · exact_mod_cast hvpos
    · exact Real.sqrt_pos.mpr (by exact_mod_cast htpos)
  have hs1R : (0 : ℝ) < ((s1 : ℚ) : ℝ) := by exact_mod_cast hs1pos
  have hs2R : (0 : ℝ) < ((s2 : ℚ) : ℝ) := by exact_mod_cast hs2pos
  have hsR : ((s1 : ℚ) : ℝ) < ((s2 : ℚ) : ℝ) := by exact_mod_cast hs
  have he1c := call_price_val_eq_bsCallfun ⟨k, v, rr, t, s1⟩ htR
  have he2c := call_price_val_eq_bsCallfun ⟨k, v, rr, t, s2⟩ htR
  have he1p := put_price_val_eq_bsPutfun ⟨k, v, rr, t, s1⟩ htR
  have he2p := put_price_val_eq_bsPutfun ⟨k, v, rr, t, s2⟩ htR
  dsimp only at he1c he2c he1p he2p
  rw [he1c, he2c, he1p, he2p]
  constructor
  · exact bsCallfun_strictMonoOn (k : ℝ) _ _ hkR hvR (Set.mem_Ioi.mpr hs1R)
      (Set.mem_Ioi.mpr hs2R) hsR
  · exact bsPutfun_strictAntiOn (k : ℝ) _ _ hkR hvR (Set.mem_Ioi.mpr hs1R)
      (Set.mem_Ioi.mpr hs2R) hsR

/-- Witness for C6 at the valid models with S = 100 and S = 110. -/
theorem C6_witness :
    call_price_val ⟨100, 1, 0, 1, 100⟩ < call_price_val ⟨100, 1, 0, 1, 110⟩ ∧
    put_price_val ⟨100, 1, 0, 1, 110⟩ < put_price_val ⟨100, 1, 0, 1, 100⟩ := by
  have hf1 : d1_degenerate ⟨100, 1, 0, 1, 100⟩ = false :=
    not_degenerate_of_ge_one _ (by norm_num) (by norm_num)
  have hf2 : d1_degenerate ⟨100, 1, 0, 1, 110⟩ = false :=
    not_degenerate_of_ge_one _ (by norm_num) (by norm_num)
  have ho1 : ¬ maxDouble ≤ discount_factor ⟨100, 1, 0, 1, 100⟩ := by
    unfold discount_factor
    exact exp_nonpos_not_overflow _ (by push_cast; norm_num)
  have ho2 : ¬ maxDouble ≤ discount_factor ⟨100, 1, 0, 1, 110⟩ := by
    unfold discount_factor
    exact exp_nonpos_not_overflow _ (by push_cast; norm_num)
  exact C6_price_monotonicity 100 1 0 1 100 110 ⟨100, 1, 0, 1, 100⟩ ⟨100, 1, 0, 1, 110⟩
    _ _ _ _ (mk_ok_intro _ _ _ _ _ (by norm_num)) (mk_ok_intro _ _ _ _ _ (by norm_num))
    (by norm_num) (call_price_ok _ hf1 ho1) (call_price_ok _ hf2 ho2)
    (put_price_ok _ hf1 ho1) (put_price_ok _ hf2 ho2)

/-! ### Claims C7 to C10 about the strategy layer -/

/-- C7: the expiration payoff never fails and is the sum over the legs
of the direction-signed quantity times the intrinsic value; in
particular a quantity-1 long call struck at 100 pays 0 at 90 and 10 at
110. -/
theorem C7_payoff_at_expiration :
    (∀ (st : OptionsStrategy) (S_T : ℚ),
      payoff_at_expiration st S_T =
        (st.positions.map (fun p =>
          (if p.position_type = PositionType.LONG then p.quantity else -p.quantity) *
            (if p.option_type = OptionType.CALL then max (S_T - p.strike) 0
              else max (p.strike - S_T) 0))).sum) ∧
    payoff_at_expiration (LongCall 100 1 0 1 100 1) 90 = 0 ∧
    payoff_at_expiration (LongCall 100 1 0 1 100 1) 110 = 10 := by
  refine ⟨?_, ?_, ?_⟩
  · intro st S_T
    unfold payoff_at_expiration
    have haux : ∀ (l : List Position) (a : ℚ),
        List.foldl (fun total p =>
          let intrinsic := if p.option_type = OptionType.CALL then max (S_T - p.strike) 0
            else max (p.strike - S_T) 0
          total + (if p.position_type = PositionType.LONG then intrinsic * p.quantity
            else -intrinsic * p.quantity)) a l =
        a + (l.map (fun p =>
          (if p.position_type = PositionType.LONG then p.quantity else -p.quantity) *
            (if p.option_type = OptionType.CALL then max (S_T - p.strike) 0
              else max (p.strike - S_T) 0))).sum := by
      intro l
      induction l with
      | nil => intro a; simp
      | cons p tl ih =>
        intro a
        rw [List.foldl_cons, ih, List.map_cons, List.sum_cons]
        rcases p with ⟨ot, pt, q, K0⟩
        cases pt <;> cases ot <;> simp <;> ring
    rw [haux]
    rw [zero_add]
  · norm_num [payoff_at_expiration, LongCall, add_position, mkStrategy, max_def]
  · norm_num [payoff_at_expiration, LongCall, add_position, mkStrategy, max_def]

/-- C8: both strangle constructors fail, with `InvalidParameter`,
exactly when the put strike is not strictly below the call strike;
otherwise they produce the two-leg put-then-call strategy. -/
theorem C8_strangle_validation :
    ∀ (S sigma r T K_put K_call qty : ℚ),
      (LongStrangle S sigma r T K_put K_call qty = .error .invalidParameter ↔
        K_call ≤ K_put) ∧
      (K_put < K_call →
        LongStrangle S sigma r T K_put K_call qty =
          .ok ⟨[⟨.PUT, .LONG, qty, K_put⟩, ⟨.CALL, .LONG, qty, K_call⟩],
            S, sigma, r, T, "Long Strangle"⟩) ∧
      (ShortStrangle S sigma r T K_put K_call qty = .error .invalidParameter ↔
        K_call ≤ K_put) ∧
      (K_put < K_call →
        ShortStrangle S sigma r T K_put K_call qty =
          .ok ⟨[⟨.PUT, .SHORT, qty, K_put⟩, ⟨.CALL, .SHORT, qty, K_call⟩],
            S, sigma, r, T, "Short Strangle"⟩) := by
  intro S sigma r T K_put K_call qty
  unfold LongStrangle ShortStrangle add_position mkStrategy
  rcases le_or_lt K_call K_put with h | h
  · rw [if_pos h, if_pos h]
    refine ⟨iff_of_true rfl h, ?_, iff_of_true rfl h, ?_⟩ <;>
      (intro hlt; exact absurd hlt (not_lt.mpr h))
  · rw [if_neg (not_le.mpr h), if_neg (not_le.mpr h)]
    refine ⟨iff_of_false (by simp) (not_le.mpr h), ?_, iff_of_false (by simp) (not_le.mpr h), ?_⟩ <;>
      (intro _; simp)

/-- Witness for C8: strikes 95 < 105 build the strangle; reversed
strikes are rejected. -/
theorem C8_witness :
    (LongStrangle 100 1 0 1 95 105 1 =
      .ok ⟨[⟨.PUT, .LONG, 1, 95⟩, ⟨.CALL, .LONG, 1, 105⟩], 100, 1, 0, 1, "Long Strangle"⟩) ∧
    (LongStrangle 100 1 0 1 105 95 1 = .error .invalidParameter) ∧
    (ShortStrangle 100 1 0 1 95 105 1 =
      .ok ⟨[⟨.PUT, .SHORT, 1, 95⟩, ⟨.CALL, .SHORT, 1, 105⟩], 100, 1, 0, 1, "Short Strangle"⟩) :=
  ⟨(C8_strangle_validation 100 1 0 1 95 105 1).2.1 (by norm_num),
   (C8_strangle_validation 100 1 0 1 105 95 1).1.mpr (by norm_num),
   (C8_strangle_validation 100 1 0 1 95 105 1).2.2.2 (by norm_num)⟩

/-- C9: when the long call and the long put at the same strike price
successfully, the long straddle prices successfully to their sum. -/
theorem C9_straddle_decomposition :
    ∀ (S sigma r T K qty : ℚ) (a b : ℝ),
      total_value (LongCall S sigma r T K qty) = .ok a →
      total_value (LongPut S sigma r T K qty) = .ok b →
      total_value (LongStraddle S sigma r T K qty) = .ok (a + b) := by
  intro S sigma r T K qty a b ha hb
  simp only [total_value, LongCall, LongPut, LongStraddle, add_position, mkStrategy,
    List.nil_append, List.foldlM, leg_value] at ha hb ⊢
  cases hm : mkBlackScholesModel (.finite K) (.finite sigma) (.finite r) (.finite T)
      (.finite S) with
  | error e =>
    rw [hm] at ha
    simp [bind, Except.bind] at ha
  | ok m =>
    rw [hm] at ha hb
    simp only [bind, Except.bind, reduceIte] at ha hb ⊢
    cases hcp : call_price m with
    | error e =>
      rw [hcp] at ha
      simp at ha
    | ok vc =>
      rw [hcp] at ha
      cases hpp : put_price m with
      | error e =>
        rw [hpp] at hb
        simp at hb
      | ok vp =>
        rw [hpp] at hb
        simp only [pure, Except.pure] at ha hb ⊢
        simp at ha hb ⊢
        linarith [ha, hb]

/-- Witness for C9 at the valid context (100, 1, 0, 1), strike 100. -/
theorem C9_witness :
    total_value (LongStraddle 100 1 0 1 100 1) =
      .ok (0 + call_price_val ⟨100, 1, 0, 1, 100⟩ * ((1:ℚ) : ℝ) +
        (0 + put_price_val ⟨100, 1, 0, 1, 100⟩ * ((1:ℚ) : ℝ))) := by
  have hf : d1_degenerate ⟨100, 1, 0, 1, 100⟩ = false :=
    not_degenerate_of_ge_one _ (by norm_num) (by norm_num)
  have ho : ¬ maxDouble ≤ discount_factor ⟨100, 1, 0, 1, 100⟩ := by
    unfold discount_factor
    exact exp_nonpos_not_overflow _ (by push_cast; norm_num)
  have hmk : mkBlackScholesModel (.finite 100) (.finite 1) (.finite 0) (.finite 1)
      (.finite 100) = .ok ⟨100, 1, 0, 1, 100⟩ := mk_ok_intro _ _ _ _ _ (by norm_num)
  apply C9_straddle_decomposition 100 1 0 1 100 1
  · simp only [total_value, LongCall, add_position, mkStrategy, List.nil_append,
      List.foldlM, leg_value, hmk, bind, Except.bind, reduceIte, reduceCtorEq, if_false,
      if_true, call_price_ok _ hf ho, pure, Except.pure]
  · simp only [total_value, LongPut, add_position, mkStrategy, List.nil_append,
      List.foldlM, leg_value, hmk, bind, Except.bind, reduceIte, reduceCtorEq, if_false,
      if_true, put_price_ok _ hf ho, pure, Except.pure]

/-- C10: an empty strategy values, deltas and pays off to exactly zero
for any market context, valid or not. -/
theorem C10_empty_strategy : ∀ (S sigma r T : ℚ) (name : String) (S_T : ℚ),
    total_value ⟨[], S, sigma, r, T, name⟩ = .ok 0 ∧
    total_delta ⟨[], S, sigma, r, T, name⟩ = .ok 0 ∧
    payoff_at_expiration ⟨[], S, sigma, r, T, name⟩ S_T = 0 := by
  intro S sigma r T name S_T
  exact ⟨rfl, rfl, rfl⟩

end OptiPricer
